import Mathlib

/- Verification of the Allocation & Ranking Engine of a Jira sprint-grooming
   bot (sources: src/main.py and src/jira_scheduler.py).  The pure decision
   logic — rank sequencing, capacity allocation, sprint lifecycle, runway
   planning, RICE scoring, roadmap slotting and the priority sort key — is
   embedded shallowly below; external Jira mutations are modelled as pure
   state transformations under success semantics (a failing HTTP call is
   logged and skipped by the source, so the success path is the specified
   behaviour). -/

namespace POAgent

/-! ### Rank Sequencer

Model of src/main.py `rank_issues` (lines 200-211) and the identical loop in
src/jira_scheduler.py (lines 67-77).  The Jira rank API offers one primitive:
place issue x immediately before issue y in the externally ordered list.
Given the desired order keys = [k0, ..., k(n-1)], the source emits, for idx
from n-2 down to 0, the move (keys[idx] before keys[idx+1]); with fewer than
two issues it returns without emitting any move. -/

/-- Insert x immediately before the first occurrence of y; if y does not
occur, the list is returned unchanged (x is not inserted). -/
def insertBefore {α : Type} [DecidableEq α] (x y : α) : List α → List α
  | [] => []
  | a :: rest => if a = y then x :: a :: rest else a :: insertBefore x y rest

/-- The Jira rank-before primitive: remove x, then insert it immediately
before y.  When y is not present after removing x the call fails on the
external side and the list is left unchanged (the source logs and
continues). -/
def moveBefore {α : Type} [DecidableEq α] (l : List α) (x y : α) : List α :=
  if y ∈ l.erase x then insertBefore x y (l.erase x) else l

/-- The move sequence emitted by rank_issues: adjacent pairs of the desired
order, last pair first — exactly `for idx in range(n-2, -1, -1): move
(keys[idx], keys[idx+1])`. -/
def rankMoves {α : Type} (keys : List α) : List (α × α) :=
  (keys.zip keys.tail).reverse

/-- Apply a move sequence, in order, to the external list. -/
def applyMoves {α : Type} [DecidableEq α] (l : List α) (moves : List (α × α)) : List α :=
  moves.foldl (fun acc m => moveBefore acc m.1 m.2) l

/-! ### Sorting

Python `list.sort(key=...)` appears throughout the source.  Only sortedness
and permutation matter for the claims, so it is modelled by a structurally
recursive insertion sort over a boolean `le`. -/

/-- Insert x into a sorted list, keeping it sorted w.r.t. le. -/
def insertSorted {α : Type} (le : α → α → Bool) (x : α) : List α → List α
  | [] => [x]
  | y :: rest => if le x y then x :: y :: rest else y :: insertSorted le x rest

/-- Insertion sort by a boolean `le` (model of Python list.sort). -/
def sortBy {α : Type} (le : α → α → Bool) : List α → List α
  | [] => []
  | x :: rest => insertSorted le x (sortBy le rest)

/-! ### Data model -/

/-- A ticket as the scheduler core sees it: key, story points
(customfield_10016, absent allowed) and status name. -/
structure Issue where
  key : String
  points : Option ℚ
  status : String
  deriving DecidableEq

/-- `issue["fields"].get(STORY_POINTS_FIELD) or 0` — missing (and zero)
story points count as 0. -/
def ptsOf (i : Issue) : ℚ := i.points.getD 0

inductive SprintState where
  | future
  | active
  | closed
  deriving DecidableEq

/-- Calendar date; Python datetime.date comparison is lexicographic on
(year, month, day). -/
structure Date where
  year : Nat
  month : Nat
  day : Nat
  deriving DecidableEq

/-- Lexicographic date comparison (Python date ≤, equivalently the string
comparison of ISO "YYYY-MM-DD" prefixes the source sorts by). -/
def Date.le (a b : Date) : Bool :=
  if a.year ≠ b.year then decide (a.year < b.year)
  else if a.month ≠ b.month then decide (a.month < b.month)
  else decide (a.day ≤ b.day)

/-- A sprint snapshot: Jira id, name, dates, state, and the issues currently
assigned to it. -/
structure Sprint where
  sid : Nat
  name : String
  startDate : Date
  endDate : Date
  state : SprintState
  issues : List Issue
  deriving DecidableEq

/-- MAX_SPRINT_POINTS = 40 (src/main.py line 24). -/
def MAX_SPRINT_POINTS : ℚ := 40

/-- PRIORITY_ORDER = {"Highest": 1, ..., "Lowest": 5}, defaulting to 999 for
an unknown priority name (src/main.py line 25 and the .get(..., 999) uses). -/
def PRIORITY_ORDER (p : String) : Nat :=
  if p = "Highest" then 1
  else if p = "High" then 2
  else if p = "Medium" then 3
  else if p = "Low" then 4
  else if p = "Lowest" then 5
  else 999

/-- COMPLETED_STATUSES = {"done", "released"} (src/main.py line 26). -/
def COMPLETED_STATUSES : List String := ["done", "released"]

/-- Python str.lower() for the ASCII status names the board uses. -/
def lowerStr (s : String) : String := String.mk (s.data.map Char.toLower)

/-- get_sprint_todo_points (src/main.py lines 167-168): sum of story points
of the sprint issues whose status is exactly "To Do". -/
def get_sprint_todo_points (s : Sprint) : ℚ :=
  ((s.issues.filter fun i => decide (i.status = "To Do")).map ptsOf).sum

/-- Available capacity of a sprint in the allocation pass:
MAX_SPRINT_POINTS − pre-existing To Do points (src/main.py line 3744),
with the budget kept as a parameter (it is a configuration constant). -/
def sprintAvail (budget : ℚ) (s : Sprint) : ℚ := budget - get_sprint_todo_points s

/-! ### Capacity Allocator

Model of JOB 2 of src/main.py `run` (lines 3738-3759) = src/jira_scheduler.py
`run` (lines 127-149).  The inner while-loop walks a single backlog pointer;
each considered ticket is either skipped (points > remaining capacity) or
assigned (capacity is decremented); the loop leaves a sprint when capacity
reaches 0 or the backlog is exhausted.  The trace of considered tickets is
recorded as events carrying the remaining capacity at the moment the ticket
was considered. -/

inductive AllocEv where
  | assign : Issue → ℚ → AllocEv
  | skip : Issue → ℚ → AllocEv
  deriving DecidableEq

def evTicket : AllocEv → Issue
  | .assign t _ => t
  | .skip t _ => t

def assignedOf (evs : List AllocEv) : List Issue :=
  evs.filterMap fun e =>
    match e with
    | .assign t _ => some t
    | .skip _ _ => none

def skippedOf (evs : List AllocEv) : List Issue :=
  evs.filterMap fun e =>
    match e with
    | .assign _ _ => none
    | .skip t _ => some t

def assignedPoints (evs : List AllocEv) : ℚ := ((assignedOf evs).map ptsOf).sum

/-- One sprint's inner while-loop (`while idx < len(backlog) and avail > 0`):
returns the event trace for this sprint and the untouched backlog suffix. -/
def allocSprint (avail : ℚ) (backlog : List Issue) : List AllocEv × List Issue :=
  match backlog with
  | [] => ([], [])
  | t :: rest =>
    if avail ≤ 0 then ([], t :: rest)
    else if ptsOf t > avail then
      let r := allocSprint avail rest
      (AllocEv.skip t avail :: r.1, r.2)
    else
      let r := allocSprint (avail - ptsOf t) rest
      (AllocEv.assign t avail :: r.1, r.2)

/-- The outer for-loop over the (future) sprint list: break when the backlog
pointer is exhausted, `continue` past sprints with no available capacity.
Each visited sprint contributes an entry (sprint id, its available capacity,
its event trace); the final backlog suffix (the loop's final pointer
position) is returned alongside. -/
def allocatePass (budget : ℚ) (sprints : List Sprint) (backlog : List Issue) :
    List (Nat × ℚ × List AllocEv) × List Issue :=
  match sprints with
  | [] => ([], backlog)
  | s :: rest =>
    if backlog = [] then ([], backlog)
    else
      let avail := sprintAvail budget s
      if avail ≤ 0 then allocatePass budget rest backlog
      else
        let r := allocSprint avail backlog
        let r2 := allocatePass budget rest r.2
        ((s.sid, avail, r.1) :: r2.1, r2.2)

/-- Sum of the points newly assigned to the sprint with the given id over the
whole pass. -/
def assignedPointsTo (sid : Nat) (res : List (Nat × ℚ × List AllocEv)) : ℚ :=
  ((res.filter fun e => decide (e.1 = sid)).map fun e => assignedPoints e.2.2).sum

/-- All tickets assigned to any sprint over the whole pass. -/
def allAssigned (res : List (Nat × ℚ × List AllocEv)) : List Issue :=
  (res.map fun e => assignedOf e.2.2).flatten

/-! ### Board queries -/

/-- get_active_sprint: the sprints in state active (src/main.py lines 156-157). -/
def get_active_sprint (board : List Sprint) : List Sprint :=
  board.filter fun s => decide (s.state = SprintState.active)

/-- get_future_sprints: the sprints in state future, sorted by start date
(src/main.py lines 159-162). -/
def get_future_sprints (board : List Sprint) : List Sprint :=
  sortBy (fun a b => Date.le a.startDate b.startDate)
    (board.filter fun s => decide (s.state = SprintState.future))

/-- get_incomplete_issues (src/main.py lines 234-235): sprint issues whose
lower-cased status is not in COMPLETED_STATUSES. -/
def get_incomplete_issues (s : Sprint) : List Issue :=
  s.issues.filter fun i => decide (lowerStr i.status ∉ COMPLETED_STATUSES)

/-! ### Sprint Lifecycle

Model of manage_sprint_lifecycle (src/main.py lines 239-264) under success
semantics.  Phase 1: every active sprint whose end date ≤ today is closed,
its incomplete issues collected as carry-over.  Phase 2: if no sprint remains
active, the earliest future sprint (by start date) is started and the
carry-over issues are moved into it; with no future sprint the board is left
with zero active sprints. -/

def shouldClose (today : Date) (s : Sprint) : Bool :=
  decide (s.state = SprintState.active) && Date.le s.endDate today

def closeStep (today : Date) (s : Sprint) : Sprint :=
  if shouldClose today s then { s with state := SprintState.closed } else s

def closeOverdue (today : Date) (board : List Sprint) : List Sprint :=
  board.map (closeStep today)

/-- Carry-over: the incomplete issues of every sprint being closed, in board
order. -/
def carryoverOf (today : Date) (board : List Sprint) : List Issue :=
  ((get_active_sprint board).filter (shouldClose today)).flatMap get_incomplete_issues

/-- Jira move semantics on one sprint record: the target sprint gains the
issue, every other sprint loses any issue with the same key. -/
def moveStep (i : Issue) (sid : Nat) (s : Sprint) : Sprint :=
  if s.sid = sid then { s with issues := s.issues ++ [i] }
  else { s with issues := s.issues.filter fun j => decide (j.key ≠ i.key) }

/-- move_issue_to_sprint (src/main.py lines 179-181) as a board transform. -/
def move_issue_to_sprint (i : Issue) (sid : Nat) (board : List Sprint) : List Sprint :=
  board.map (moveStep i sid)

def activateStep (sid : Nat) (s : Sprint) : Sprint :=
  if s.sid = sid then { s with state := SprintState.active } else s

/-- start_sprint on the chosen next sprint (dates are reused, not recomputed)
followed by moving each carry-over issue into it. -/
def startAndCarry (sid : Nat) (carry : List Issue) (board : List Sprint) : List Sprint :=
  carry.foldl (fun b i => move_issue_to_sprint i sid b) (board.map (activateStep sid))

/-- The sprint the "start next" step picks: only when zero sprints remain
active after the closings, the head of the sorted future list (none when no
future sprint exists — a valid no-op, not an error). -/
def nextSprintSid (today : Date) (board : List Sprint) : Option Nat :=
  let b1 := closeOverdue today board
  if (get_active_sprint b1).isEmpty then
    match get_future_sprints b1 with
    | [] => none
    | ns :: _ => some ns.sid
  else none

/-- manage_sprint_lifecycle: resulting board and the carry-over list. -/
def manage_sprint_lifecycle (today : Date) (board : List Sprint) :
    List Sprint × List Issue :=
  let carry := carryoverOf today board
  let b1 := closeOverdue today board
  match nextSprintSid today board with
  | none => (b1, carry)
  | some sid => (startAndCarry sid carry b1, carry)

/-- Number of position-wise Future→Active transitions between an input board
and an output board. -/
def transitionsToActive (board out : List Sprint) : Nat :=
  ((board.zip out).filter fun p =>
    decide (p.1.state = SprintState.future) && decide (p.2.state = SprintState.active)).length

/-! ### Runway Planner

next_tuesday (src/main.py lines 213-215) and ensure_sprint_runway (lines
268-285).  Dates here are day numbers with day 0 a Monday, so Python
`dt.weekday()` is `d % 7` and Tuesday is weekday 1. -/

/-- `days = (1 - dt.weekday()) % 7; return dt + timedelta(days if days else 7)` —
the next day with weekday Tuesday strictly after d. -/
def next_tuesday (d : Nat) : Nat :=
  let days := (8 - d % 7) % 7
  d + (if days = 0 then 7 else days)

/-- The sprint-generation loop of ensure_sprint_runway: n new (start, end)
windows, each starting on the next Tuesday strictly after the previous end
plus one day and ending 13 days later. -/
def genRunway : Nat → Nat → List (Nat × Nat)
  | 0, _ => []
  | n + 1, lastEnd =>
    let start := next_tuesday (lastEnd + 1)
    (start, start + 13) :: genRunway n (start + 13)

/-- The latest end among the given sprints' ends (the source sorts
future+active by end date and takes the last), falling back to `now`. -/
def lastEndOf (ends : List Nat) (now : Nat) : Nat :=
  match (sortBy (fun a b => decide (a ≤ b)) ends).getLast? with
  | some e => e
  | none => now

/-- ensure_sprint_runway: no-op when enough future sprints exist, otherwise
append the generated windows and sort by start. -/
def ensure_sprint_runway (future : List (Nat × Nat)) (ends : List Nat)
    (now required : Nat) : List (Nat × Nat) :=
  if required ≤ future.length then future
  else
    sortBy (fun a b => decide (a.1 ≤ b.1))
      (future ++ genRunway (required - future.length) (lastEndOf ends now))

/-- The spec's date rule, stated in its own words: each generated sprint
starts on the next occurrence of the fixed weekday strictly after the
previous end + 1 day and ends exactly 13 days after its start. -/
def runwayChainOk (lastEnd : Nat) : List (Nat × Nat) → Bool
  | [] => true
  | (s, e) :: rest =>
    decide (s = next_tuesday (lastEnd + 1)) && decide (e = s + 13) && runwayChainOk e rest

/-! ### Roadmap columns and the priority sort key -/

/-- ROADMAP_COLUMNS (src/main.py lines 43-55): (display value, option id),
ordered left-to-right, soonest first. -/
def ROADMAP_COLUMNS : List (String × String) :=
  [("February (S2)", "10232"), ("March (S1)", "10233"), ("March (S2)", "10269"),
   ("April (S1)", "10529"), ("April (S2)", "10530"), ("May (S1)", "10531"),
   ("May (S2)", "10538"), ("June (S1)", "10539"), ("June (S2)", "10540"),
   ("July (S1)", "10537"), ("July (S2)", "10541")]

def ROADMAP_BACKLOG_ID : String := "10536"

/-- IDEAS_PER_COLUMN = 3 (src/main.py line 59). -/
def IDEAS_PER_COLUMN : Nat := 3

/-- COLUMN_RANK (src/main.py lines 61-63) with the .get(col_id, 999) default:
column position for the 11 roadmap columns, 999 for the Backlog bucket and
for any other (or unknown) option id. -/
def columnRank (colId : String) : Nat :=
  match ROADMAP_COLUMNS.findIdx? (fun c => c.2 == colId) with
  | some i => i
  | none => 999

/-- The rank stored in the EPIC_ROADMAP_RANK cache for an idea whose roadmap
field holds the given option id (None allowed):
`COLUMN_RANK.get(col_id, 999)` (src/main.py lines 3021-3022). -/
def cacheEntryRank (colId : Option String) : Nat :=
  match colId with
  | some c => columnRank c
  | none => 999

/-- A ticket as _roadmap_sort_key sees it.  parentKey is "" when the parent
field is absent, mirroring `(f.get("parent") or {}).get("key", "")`;
priority is the priority name, "" when absent. -/
structure RankTicket where
  key : String
  issuetype : String
  parentKey : String
  priority : String
  deriving DecidableEq

/-- The EPIC_ROADMAP_RANK lookup of _roadmap_sort_key: the ticket's own key
for an Epic, else its parent key; an empty key never matches
(`if epic_key and epic_key in EPIC_ROADMAP_RANK`). -/
def epicRankOf (cache : List (String × Nat × ℚ)) (i : RankTicket) : Option (Nat × ℚ) :=
  let epicKey := if i.issuetype = "Epic" then i.key else i.parentKey
  if epicKey = "" then none else cache.lookup epicKey

/-- _roadmap_sort_key (src/main.py lines 184-197): (column rank, −RICE value,
ordinal priority) for a cached epic, (500, 0, ordinal priority) otherwise. -/
def roadmap_sort_key (cache : List (String × Nat × ℚ)) (i : RankTicket) : Nat × ℚ × Nat :=
  match epicRankOf cache i with
  | some (colRank, rice) => (colRank, -rice, PRIORITY_ORDER i.priority)
  | none => (500, 0, PRIORITY_ORDER i.priority)

/-- Strict lexicographic comparison of sort keys — "sorts strictly before". -/
def keyLt (a b : Nat × ℚ × Nat) : Prop :=
  a.1 < b.1 ∨ (a.1 = b.1 ∧ (a.2.1 < b.2.1 ∨ (a.2.1 = b.2.1 ∧ a.2.2 < b.2.2)))

instance (a b : Nat × ℚ × Nat) : Decidable (keyLt a b) := by
  unfold keyLt
  infer_instance

/-! ### RICE scoring -/

/-- The clamp used by process_user_feedback (src/main.py lines 1058-1062):
`min(max(int(x), 1), 5)`. -/
def clampRice (x : Int) : Int := min (max x 1) 5

/-- The RICE value computed by process_user_feedback (line 1064) from the
clamped factors. -/
def feedback_rice_value (reach impact confidence effort : Int) : ℚ :=
  ((clampRice reach * clampRice impact * clampRice confidence : Int) : ℚ) /
    ((clampRice effort : Int) : ℚ)

/-- `f.get(FIELD) or 1`: a missing or zero (falsy) factor becomes 1; any
other value — including values outside [1,5] — is used as-is. -/
def orOne (x : Option ℚ) : ℚ :=
  match x with
  | none => 1
  | some v => if v = 0 then 1 else v

/-- The RICE value computed by prioritise_strategic_ideas (src/main.py lines
2821-2827), prioritise_feedback_ideas (lines 979-985) and the
EPIC_ROADMAP_RANK cache build (lines 3023-3027): factors defaulted with
`or 1`, not clamped. -/
def strategic_rice_value (r i c e : Option ℚ) : ℚ :=
  orOne r * orOne i * orOne c / orOne e

/-- Modelled from the spec: the value the RICE Scorer contract describes,
with every factor clamped to [1,5] before computing.  Used only to compare
the source's computation against the spec's words. -/
def clamp15Q (x : ℚ) : ℚ := min (max x 1) 5

/-- Modelled from the spec: reach×impact×confidence/effort over clamped
factors ("Inputs are clamped to [1,5] before computing"). -/
def spec_rice_value (r i c e : ℚ) : ℚ :=
  clamp15Q r * clamp15Q i * clamp15Q c / clamp15Q e

/-! ### Roadmap Slotter

prioritise_strategic_ideas (src/main.py lines 2815-2864) and the identical
prioritise_feedback_ideas (lines 960-1024): sort scored ideas by RICE value
descending, then fill the 11 roadmap columns with up to IDEAS_PER_COLUMN
ideas each, remainder to the Backlog bucket. -/

/-- A scored idea: the four RICE factor fields (possibly absent). -/
structure Idea where
  key : String
  reach : Option ℚ
  impact : Option ℚ
  confidence : Option ℚ
  effort : Option ℚ
  deriving DecidableEq

/-- `issue["_rice_value"]` as computed before sorting. -/
def riceValue (i : Idea) : ℚ :=
  strategic_rice_value i.reach i.impact i.confidence i.effort

/-- `issues.sort(key=lambda x: x["_rice_value"], reverse=True)`. -/
def ideasSortedDesc (items : List Idea) : List Idea :=
  sortBy (fun a b => decide (riceValue b ≤ riceValue a)) items

/-- The column-filling walk: column j receives the next at-most-`cap` items
of the sorted list, the remainder (after all `n` columns) goes to the
unbounded Backlog bucket. -/
def slotColumns {α : Type} (cap : Nat) : Nat → List α → List (List α) × List α
  | 0, items => ([], items)
  | n + 1, items =>
    let r := slotColumns cap n (items.drop cap)
    (items.take cap :: r.1, r.2)

/-- prioritise_strategic_ideas as a pure placement: the 11 column loads and
the backlog-bucket remainder. -/
def prioritise_strategic_ideas (items : List Idea) : List (List Idea) × List Idea :=
  slotColumns IDEAS_PER_COLUMN ROADMAP_COLUMNS.length (ideasSortedDesc items)

/-- Pairwise ordering between column loads: every item of an earlier chunk
relates to every item of a later chunk (instantiated with RICE-value ≥, this
says each column's minimum value is at least the next column's maximum). -/
def chunksOrdered {α : Type} (R : α → α → Prop) (cs : List (List α)) : Prop :=
  List.Pairwise (fun c d => ∀ x ∈ c, ∀ y ∈ d, R x y) cs

/-! ### JOB 2 as a board transform (for the frame property) -/

/-- The move commands emitted by JOB 2: each assigned ticket paired with the
future sprint id it is moved to. -/
def job2_moves (budget : ℚ) (board : List Sprint) (backlog : List Issue) :
    List (Issue × Nat) :=
  (allocatePass budget (get_future_sprints board) backlog).1.flatMap fun e =>
    (assignedOf e.2.2).map fun i => (i, e.1)

/-- JOB 2 applied to the board: every emitted move executed in order. -/
def job2 (budget : ℚ) (board : List Sprint) (backlog : List Issue) : List Sprint :=
  (job2_moves budget board backlog).foldl (fun b m => move_issue_to_sprint m.1 m.2 b) board

/-! ## Theorems -/

/-! ### C1: Rank Sequencer round-trip -/

theorem insertBefore_append {α : Type} [DecidableEq α] (x y : α) (l₁ l₂ : List α)
    (h : y ∉ l₁) : insertBefore x y (l₁ ++ l₂) = l₁ ++ insertBefore x y l₂ := by
  induction l₁ with
  | nil => simp
  | cons a rest ih =>
    simp only [List.cons_append, insertBefore, List.append_eq]
    have hay : ¬ (a = y) := fun hh => h (by simp [hh])
    rw [if_neg hay, ih fun hm => h (List.mem_cons_of_mem _ hm)]

theorem insertBefore_cons_self {α : Type} [DecidableEq α] (x y : α) (l : List α) :
    insertBefore x y (y :: l) = x :: y :: l := by
  simp [insertBefore]

theorem insertBefore_perm {α : Type} [DecidableEq α] (x y : α) (l : List α)
    (h : y ∈ l) : (insertBefore x y l).Perm (x :: l) := by
  induction l with
  | nil => cases h
  | cons a rest ih =>
    by_cases hay : a = y
    · simp [insertBefore, hay]
    · have hyr : y ∈ rest := (List.mem_cons.mp h).resolve_left fun hh => hay hh.symm
      simp only [insertBefore, if_neg hay]
      exact ((ih hyr).cons a).trans (List.Perm.swap x a rest)

theorem rankMoves_cons_cons {α : Type} (k k2 : α) (rest : List α) :
    rankMoves (k :: k2 :: rest) = rankMoves (k2 :: rest) ++ [(k, k2)] := by
  simp [rankMoves, List.zip_cons_cons]

theorem applyMoves_append_single {α : Type} [DecidableEq α] (l : List α)
    (ms : List (α × α)) (m : α × α) :
    applyMoves l (ms ++ [m]) = moveBefore (applyMoves l ms) m.1 m.2 := by
  simp [applyMoves, List.foldl_append]

/-- Invariant of the last-to-first move emission: after the moves for a
suffix of the desired order have been applied, that suffix occupies a
contiguous block, and the list is still a permutation of the start list. -/
theorem applyMoves_rankMoves_block {α : Type} [DecidableEq α] :
    ∀ (keys l : List α), keys.Nodup → l.Nodup → (∀ x ∈ keys, x ∈ l) →
      ∃ pre post, applyMoves l (rankMoves keys) = pre ++ keys ++ post ∧
        (applyMoves l (rankMoves keys)).Perm l := by
  intro keys
  induction keys with
  | nil =>
    intro l _ _ _
    exact ⟨[], l, by simp [rankMoves, applyMoves], by simp [rankMoves, applyMoves]⟩
  | cons k tail ih =>
    intro l hnd hlnd hmem
    match tail, ih with
    | [], _ =>
      rcases List.mem_iff_append.mp (hmem k (by simp)) with ⟨s, t, hst⟩
      exact ⟨s, t, by simpa [rankMoves, applyMoves] using hst, by simp [rankMoves, applyMoves]⟩
    | k2 :: rest, ih =>
      have htl : (k2 :: rest).Nodup := hnd.of_cons
      have hknotin : k ∉ k2 :: rest := (List.nodup_cons.mp hnd).1
      obtain ⟨pre, post, h1, hperm⟩ :=
        ih l htl hlnd fun x hx => hmem x (List.mem_cons_of_mem _ hx)
      set L1 := applyMoves l (rankMoves (k2 :: rest)) with hL1
      have hrw : applyMoves l (rankMoves (k :: k2 :: rest)) = moveBefore L1 k k2 := by
        rw [rankMoves_cons_cons, applyMoves_append_single]
      have hLnd : L1.Nodup := (hperm.nodup_iff).mpr hlnd
      have hkL1 : k ∈ L1 := hperm.mem_iff.mpr (hmem k (by simp))
      have hkk2 : k ≠ k2 := fun hh => hknotin (by simp [hh])
      have h1' : L1 = pre ++ k2 :: (rest ++ post) := by simpa using h1
      have hk2L1 : k2 ∈ L1 := by rw [h1']; simp
      have hk2e : k2 ∈ L1.erase k := (List.mem_erase_of_ne (Ne.symm hkk2)).mpr hk2L1
      have hmb : moveBefore L1 k k2 = insertBefore k k2 (L1.erase k) := by
        rw [moveBefore, if_pos hk2e]
      have hk2pre : k2 ∉ pre := by
        have := hLnd
        rw [h1'] at this
        rcases List.nodup_append.mp this with ⟨_, _, hdisj⟩
        intro hc
        exact hdisj hc (by simp)
      have hk2post : k2 ∉ post := by
        have := hLnd
        rw [h1'] at this
        rcases List.nodup_append.mp this with ⟨_, hmidnd, _⟩
        have := (List.nodup_cons.mp hmidnd).1
        intro hc
        exact this (List.mem_append.mpr (Or.inr hc))
      have hperm' : (moveBefore L1 k k2).Perm l := by
        rw [hmb]
        exact ((insertBefore_perm k k2 _ hk2e).trans
          (List.perm_cons_erase hkL1).symm).trans hperm
      have hkpp : k ∈ pre ∨ k ∈ post := by
        have : k ∈ pre ++ k2 :: (rest ++ post) := h1' ▸ hkL1
        rcases List.mem_append.mp this with hp | hmid
        · exact Or.inl hp
        · rcases List.mem_cons.mp hmid with he | hmid2
          · exact absurd (by simp [he]) hknotin
          · rcases List.mem_append.mp hmid2 with hr | hp
            · exact absurd (by simp [hr]) hknotin
            · exact Or.inr hp
      rcases hkpp with hkpre | hkpost
      · have herase : L1.erase k = pre.erase k ++ k2 :: (rest ++ post) := by
          rw [h1', List.erase_append_left _ hkpre]
        have hk2pe : k2 ∉ pre.erase k := fun hc => hk2pre (List.mem_of_mem_erase hc)
        refine ⟨pre.erase k, post, ?_, hrw ▸ hperm'⟩
        rw [hrw, hmb, herase, insertBefore_append _ _ _ _ hk2pe, insertBefore_cons_self]
        simp
      · have hkpre2 : k ∉ pre := by
          intro hc
          have := hLnd
          rw [h1'] at this
          rcases List.nodup_append.mp this with ⟨_, _, hdisj⟩
          exact (List.nodup_cons.mp (List.nodup_append.mp this).2.1).1
            (by exact List.mem_append.mpr (Or.inr (absurd hc (fun hcc => hdisj hcc (by
              simp [List.mem_append.mpr (Or.inr hkpost)])))))
        have herase : L1.erase k = pre ++ k2 :: (rest ++ post.erase k) := by
          rw [h1', List.erase_append_right _ hkpre2]
          have hk2r : k ∉ k2 :: rest := hknotin
          have : (k2 :: (rest ++ post)).erase k = k2 :: (rest ++ post).erase k := by
            rw [List.erase_cons_tail]
            simp only [beq_iff_eq]
            exact fun hh => hkk2 hh.symm
          rw [this, List.erase_append_right]
          intro hc
          exact hknotin (by simp [hc])
        have hk2pe : k2 ∉ pre := hk2pre
        refine ⟨pre, post.erase k, ?_, hrw ▸ hperm'⟩
        rw [hrw, hmb, herase, insertBefore_append _ _ _ _ hk2pe, insertBefore_cons_self]
        simp

/-- Claim C1 (Rank Sequencer round-trip): for every desired order of n ≥ 2
distinct tickets, applying the emitted moves — for i from n−2 down to 0,
place keys[i] immediately before keys[i+1] — to an arbitrary initial
permutation yields exactly the desired order; and for fewer than two tickets
no move is emitted. -/
theorem rank_issues_roundtrip {α : Type} [DecidableEq α] :
    (∀ (keys l : List α), keys.Nodup → l.Perm keys →
      applyMoves l (rankMoves keys) = keys) ∧
    (∀ keys : List α, keys.length < 2 → rankMoves keys = []) := by
  constructor
  · intro keys l hnd hperm
    have hlnd : l.Nodup := hperm.nodup_iff.mpr hnd
    have hmem : ∀ x ∈ keys, x ∈ l := fun x hx => hperm.mem_iff.mpr hx
    obtain ⟨pre, post, hdec, hp⟩ := applyMoves_rankMoves_block keys l hnd hlnd hmem
    have hlen : (applyMoves l (rankMoves keys)).length = keys.length :=
      (hp.trans hperm).length_eq
    rw [hdec] at hlen
    simp only [List.length_append] at hlen
    have hpre : pre = [] := List.length_eq_zero.mp (by omega)
    have hpost : post = [] := List.length_eq_zero.mp (by omega)
    rw [hdec, hpre, hpost]
    simp
  · intro keys h
    match keys with
    | [] => rfl
    | [k] => rfl

/-- Witness for C1 at a concrete instance. -/
theorem rank_issues_roundtrip_witness :
    applyMoves [3, 1, 2] (rankMoves [1, 2, 3]) = [1, 2, 3] ∧
      rankMoves ([] : List Nat) = [] :=
  ⟨(rank_issues_roundtrip (α := Nat)).1 [1, 2, 3] [3, 1, 2] (by decide) (by decide),
    (rank_issues_roundtrip (α := Nat)).2 [] (by decide)⟩

/-! ### C8: Runway Planner date rule -/

theorem next_tuesday_spec (d : Nat) :
    next_tuesday d % 7 = 1 ∧ d < next_tuesday d ∧ (d % 7 = 1 → next_tuesday d = d + 7) := by
  refine ⟨?_, ?_, fun hd => ?_⟩ <;> simp only [next_tuesday] <;> split <;> omega

theorem genRunway_chain (n : Nat) : ∀ lastEnd : Nat,
    runwayChainOk lastEnd (genRunway n lastEnd) = true := by
  induction n with
  | zero => intro lastEnd; rfl
  | succ n ih =>
    intro lastEnd
    simp [genRunway, runwayChainOk, ih]

theorem genRunway_mem (n : Nat) : ∀ lastEnd : Nat, ∀ p ∈ genRunway n lastEnd,
    p.1 % 7 = 1 ∧ p.2 = p.1 + 13 ∧ lastEnd + 1 < p.1 := by
  induction n with
  | zero => intro lastEnd p hp; cases hp
  | succ n ih =>
    intro lastEnd p hp
    simp only [genRunway, List.mem_cons] at hp
    rcases hp with he | hm
    · subst he
      exact ⟨(next_tuesday_spec _).1, rfl, (next_tuesday_spec (lastEnd + 1)).2.1⟩
    · have h3 := ih _ p hm
      have h4 := (next_tuesday_spec (lastEnd + 1)).2.1
      exact ⟨h3.1, h3.2.1, by omega⟩

/-- Claim C8 (Runway Planner date rule): when the future-sprint count is
already at the required level, ensure_sprint_runway is a no-op; otherwise
every generated sprint starts on the next Tuesday (weekday 1, day 0 being a
Monday) strictly after the previous end + 1 day — a full 7 days later when
that day is itself a Tuesday — and ends exactly 13 days after its start. -/
theorem runway_date_rule :
    (∀ (future : List (Nat × Nat)) (ends : List Nat) (now required : Nat),
      required ≤ future.length → ensure_sprint_runway future ends now required = future) ∧
    (∀ n lastEnd, runwayChainOk lastEnd (genRunway n lastEnd) = true) ∧
    (∀ n lastEnd, ∀ p ∈ genRunway n lastEnd,
      p.1 % 7 = 1 ∧ p.2 = p.1 + 13 ∧ lastEnd + 1 < p.1) ∧
    (∀ d : Nat, d % 7 = 1 → next_tuesday d = d + 7) := by
  refine ⟨?_, genRunway_chain, genRunway_mem, fun d => (next_tuesday_spec d).2.2⟩
  intro future ends now required h
  simp [ensure_sprint_runway, h]

/-- Witness for C8: a saturated runway is untouched; day 8 (a Tuesday) jumps
a full week; the single sprint generated after lastEnd = 0 is (8, 21). -/
theorem runway_date_rule_witness :
    ensure_sprint_runway [(0, 13)] [13] 0 1 = [(0, 13)] ∧
      next_tuesday 8 = 15 ∧
      ((8, 21).1 % 7 = 1 ∧ (8, 21).2 = (8, 21).1 + 13 ∧ 0 + 1 < (8, 21).1) :=
  ⟨runway_date_rule.1 [(0, 13)] [13] 0 1 (by decide),
    runway_date_rule.2.2.2 8 (by decide),
    runway_date_rule.2.2.1 1 0 (8, 21) (by decide)⟩

/-! ### Sorting lemmas -/

theorem insertSorted_perm {α : Type} (le : α → α → Bool) (x : α) :
    ∀ l : List α, (insertSorted le x l).Perm (x :: l) := by
  intro l
  induction l with
  | nil => exact List.Perm.refl _
  | cons y rest ih =>
    by_cases hxy : le x y = true
    · simp [insertSorted, hxy]
    · simp only [insertSorted, if_neg hxy]
      exact (ih.cons y).trans (List.Perm.swap x y rest)

theorem sortBy_perm {α : Type} (le : α → α → Bool) : ∀ l : List α, (sortBy le l).Perm l := by
  intro l
  induction l with
  | nil => exact List.Perm.refl _
  | cons x rest ih =>
    simp only [sortBy]
    exact (insertSorted_perm le x _).trans (ih.cons x)

theorem pairwise_insertSorted {α : Type} (le : α → α → Bool)
    (htrans : ∀ a b c, le a b = true → le b c = true → le a c = true)
    (htot : ∀ a b, le a b = true ∨ le b a = true) (x : α) :
    ∀ l : List α, List.Pairwise (fun a b => le a b = true) l →
      List.Pairwise (fun a b => le a b = true) (insertSorted le x l) := by
  intro l
  induction l with
  | nil => intro _; simp [insertSorted]
  | cons y rest ih =>
    intro hp
    rcases List.pairwise_cons.mp hp with ⟨hy, hrest⟩
    by_cases hxy : le x y = true
    · rw [insertSorted, if_pos hxy]
      refine List.pairwise_cons.mpr ⟨?_, hp⟩
      intro z hz
      rcases List.mem_cons.mp hz with rfl | hz2
      · exact hxy
      · exact htrans x y z hxy (hy z hz2)
    · rw [insertSorted, if_neg hxy]
      have hyx : le y x = true := (htot x y).resolve_left hxy
      refine List.pairwise_cons.mpr ⟨?_, ih hrest⟩
      intro z hz
      have hz3 : z ∈ x :: rest := (insertSorted_perm le x rest).mem_iff.mp hz
      rcases List.mem_cons.mp hz3 with rfl | hz4
      · exact hyx
      · exact hy z hz4

theorem pairwise_sortBy {α : Type} (le : α → α → Bool)
    (htrans : ∀ a b c, le a b = true → le b c = true → le a c = true)
    (htot : ∀ a b, le a b = true ∨ le b a = true) :
    ∀ l : List α, List.Pairwise (fun a b => le a b = true) (sortBy le l) := by
  intro l
  induction l with
  | nil => simp [sortBy]
  | cons x rest ih =>
    simp only [sortBy]
    exact pairwise_insertSorted le htrans htot x _ ih

/-! ### C9: Roadmap Slotter postconditions -/

theorem slotColumns_length_le {α : Type} (cap : Nat) :
    ∀ (n : Nat) (items : List α), ∀ c ∈ (slotColumns cap n items).1, c.length ≤ cap := by
  intro n
  induction n with
  | zero => intro items c hc; cases hc
  | succ n ih =>
    intro items c hc
    simp only [slotColumns] at hc
    rcases List.mem_cons.mp hc with rfl | hm
    · exact List.length_take_le cap items
    · exact ih _ c hm

theorem slotColumns_flatten {α : Type} (cap : Nat) :
    ∀ (n : Nat) (items : List α),
      (slotColumns cap n items).1.flatten ++ (slotColumns cap n items).2 = items := by
  intro n
  induction n with
  | zero => intro items; rfl
  | succ n ih =>
    intro items
    simp only [slotColumns, List.flatten_cons, List.append_assoc]
    rw [ih (items.drop cap), List.take_append_drop]

theorem slotColumns_chunks_sorted {α : Type} (R : α → α → Prop) (cap : Nat) :
    ∀ (n : Nat) (items : List α), List.Pairwise R items →
      chunksOrdered R ((slotColumns cap n items).1 ++ [(slotColumns cap n items).2]) := by
  intro n
  induction n with
  | zero =>
    intro items hp
    simp [slotColumns, chunksOrdered]
  | succ n ih =>
    intro items hp
    have hsplit : List.Pairwise R (items.take cap ++ items.drop cap) := by
      rw [List.take_append_drop]; exact hp
    rcases List.pairwise_append.mp hsplit with ⟨_, hpd, hcross⟩
    have ihd := ih (items.drop cap) hpd
    simp only [slotColumns, List.cons_append, chunksOrdered] at ihd ⊢
    refine List.pairwise_cons.mpr ⟨?_, ihd⟩
    intro d hd x hx y hy
    have hyd : y ∈ items.drop cap := by
      have h2 := slotColumns_flatten cap n (items.drop cap)
      rcases List.mem_append.mp hd with hdc | hdb
      · have hyf : y ∈ (slotColumns cap n (items.drop cap)).1.flatten :=
          List.mem_flatten.mpr ⟨d, hdc, hy⟩
        rw [← h2]
        exact List.mem_append.mpr (Or.inl hyf)
      · have hde : d = (slotColumns cap n (items.drop cap)).2 := by simpa using hdb
        subst hde
        rw [← h2]
        exact List.mem_append.mpr (Or.inr hy)
    exact hcross x hx y hyd

/-- Claim C9 (Roadmap Slotter postconditions): after slotting, no column
holds more than IDEAS_PER_COLUMN items; the column loads plus the Backlog
bucket account for the whole input; and RICE values are non-increasing
across column rank and into the bucket (every item of an earlier column has
value ≥ every item of a later column or of the bucket). -/
theorem slotter_postconditions (items : List Idea) :
    (∀ c ∈ (prioritise_strategic_ideas items).1, c.length ≤ IDEAS_PER_COLUMN) ∧
    (((prioritise_strategic_ideas items).1.map List.length).sum
        + (prioritise_strategic_ideas items).2.length = items.length) ∧
    chunksOrdered (fun a b => riceValue b ≤ riceValue a)
      ((prioritise_strategic_ideas items).1 ++ [(prioritise_strategic_ideas items).2]) := by
  simp only [prioritise_strategic_ideas]
  refine ⟨fun c hc => slotColumns_length_le _ _ _ c hc, ?_, ?_⟩
  · have h := slotColumns_flatten IDEAS_PER_COLUMN ROADMAP_COLUMNS.length (ideasSortedDesc items)
    have hlen := congrArg List.length h
    simp only [List.length_append, List.length_flatten] at hlen
    have hperm : (ideasSortedDesc items).length = items.length :=
      (sortBy_perm _ items).length_eq
    omega
  · have hs := pairwise_sortBy (fun a b => decide (riceValue b ≤ riceValue a))
      (fun a b c hab hbc => by
        simp only [decide_eq_true_eq] at hab hbc ⊢
        exact le_trans hbc hab)
      (fun a b => by
        simp only [decide_eq_true_eq]
        exact le_total (riceValue b) (riceValue a)) items
    have hs' : List.Pairwise (fun a b => riceValue b ≤ riceValue a) (ideasSortedDesc items) :=
      hs.imp fun h => of_decide_eq_true h
    exact slotColumns_chunks_sorted _ _ _ _ hs'

/-! ### Capacity Allocator lemmas -/

theorem mem_assignedOf {evs : List AllocEv} {t : Issue} :
    t ∈ assignedOf evs ↔ ∃ a, AllocEv.assign t a ∈ evs := by
  simp only [assignedOf, List.mem_filterMap]
  constructor
  · rintro ⟨e, he, hf⟩
    cases e with
    | assign u a =>
      simp only [Option.some.injEq] at hf
      subst hf
      exact ⟨a, he⟩
    | skip u a => simp at hf
  · rintro ⟨a, ha⟩
    exact ⟨AllocEv.assign t a, ha, rfl⟩

theorem mem_skippedOf {evs : List AllocEv} {t : Issue} :
    t ∈ skippedOf evs ↔ ∃ a, AllocEv.skip t a ∈ evs := by
  simp only [skippedOf, List.mem_filterMap]
  constructor
  · rintro ⟨e, he, hf⟩
    cases e with
    | assign u a => simp at hf
    | skip u a =>
      simp only [Option.some.injEq] at hf
      subst hf
      exact ⟨a, he⟩
  · rintro ⟨a, ha⟩
    exact ⟨AllocEv.skip t a, ha, rfl⟩

theorem assignedOf_subset {evs : List AllocEv} {t : Issue} (h : t ∈ assignedOf evs) :
    t ∈ evs.map evTicket := by
  rcases mem_assignedOf.mp h with ⟨a, ha⟩
  exact List.mem_map.mpr ⟨AllocEv.assign t a, ha, rfl⟩

theorem skippedOf_subset {evs : List AllocEv} {t : Issue} (h : t ∈ skippedOf evs) :
    t ∈ evs.map evTicket := by
  rcases mem_skippedOf.mp h with ⟨a, ha⟩
  exact List.mem_map.mpr ⟨AllocEv.skip t a, ha, rfl⟩

theorem allocSprint_tickets : ∀ (bk : List Issue) (avail : ℚ),
    ((allocSprint avail bk).1.map evTicket) ++ (allocSprint avail bk).2 = bk := by
  intro bk
  induction bk with
  | nil => intro avail; rfl
  | cons t rest ih =>
    intro avail
    simp only [allocSprint]
    by_cases h0 : avail ≤ 0
    · rw [if_pos h0]
      rfl
    · rw [if_neg h0]
      by_cases hskip : ptsOf t > avail
      · rw [if_pos hskip]
        simp only [List.map_cons, List.cons_append, evTicket]
        rw [ih avail]
      · rw [if_neg hskip]
        simp only [List.map_cons, List.cons_append, evTicket]
        rw [ih (avail - ptsOf t)]

theorem allocSprint_events : ∀ (bk : List Issue) (avail : ℚ),
    ∀ ev ∈ (allocSprint avail bk).1,
      (∀ t a, ev = AllocEv.assign t a → ptsOf t ≤ a ∧ 0 < a) ∧
      (∀ t a, ev = AllocEv.skip t a → a < ptsOf t ∧ 0 < a) := by
  intro bk
  induction bk with
  | nil => intro avail ev hev; cases hev
  | cons t rest ih =>
    intro avail ev hev
    simp only [allocSprint] at hev
    by_cases h0 : avail ≤ 0
    · rw [if_pos h0] at hev
      cases hev
    · rw [if_neg h0] at hev
      by_cases hskip : ptsOf t > avail
      · rw [if_pos hskip] at hev
        rcases List.mem_cons.mp hev with rfl | hm
        · refine ⟨fun u a hua => (nomatch hua), fun u a hua => ?_⟩
          cases hua
          exact ⟨hskip, lt_of_not_le h0⟩
        · exact ih avail ev hm
      · rw [if_neg hskip] at hev
        rcases List.mem_cons.mp hev with rfl | hm
        · refine ⟨fun u a hua => ?_, fun u a hua => (nomatch hua)⟩
          cases hua
          exact ⟨not_lt.mp hskip, lt_of_not_le h0⟩
        · exact ih (avail - ptsOf t) ev hm

theorem allocSprint_sum_le : ∀ (bk : List Issue) (avail : ℚ), 0 ≤ avail →
    assignedPoints (allocSprint avail bk).1 ≤ avail := by
  intro bk
  induction bk with
  | nil => intro avail h; simpa [allocSprint, assignedPoints, assignedOf] using h
  | cons t rest ih =>
    intro avail h
    simp only [allocSprint]
    by_cases h0 : avail ≤ 0
    · rw [if_pos h0]
      simpa [assignedPoints, assignedOf] using h
    · rw [if_neg h0]
      by_cases hskip : ptsOf t > avail
      · rw [if_pos hskip]
        simpa [assignedPoints, assignedOf] using ih avail h
      · rw [if_neg hskip]
        have hle : ptsOf t ≤ avail := not_lt.mp hskip
        have h2 : (0 : ℚ) ≤ avail - ptsOf t := by linarith
        have h3 := ih (avail - ptsOf t) h2
        simp only [assignedPoints, assignedOf, List.filterMap_cons, List.map_cons,
          List.sum_cons] at h3 ⊢
        linarith

theorem allocSprint_skip_fresh : ∀ (bk : List Issue) (avail : ℚ), bk.Nodup →
    ∀ t ∈ skippedOf (allocSprint avail bk).1,
      t ∉ assignedOf (allocSprint avail bk).1 ∧ t ∉ (allocSprint avail bk).2 := by
  intro bk
  induction bk with
  | nil => intro avail _ t ht; cases ht
  | cons t0 rest ih =>
    intro avail hnd t ht
    have hnd0 : t0 ∉ rest := (List.nodup_cons.mp hnd).1
    have hndr : rest.Nodup := (List.nodup_cons.mp hnd).2
    simp only [allocSprint] at ht ⊢
    by_cases h0 : avail ≤ 0
    · rw [if_pos h0] at ht
      cases ht
    · rw [if_neg h0] at ht ⊢
      by_cases hskip : ptsOf t0 > avail
      · rw [if_pos hskip] at ht ⊢
        have hsk : skippedOf (AllocEv.skip t0 avail :: (allocSprint avail rest).1) =
            t0 :: skippedOf (allocSprint avail rest).1 := by
          simp [skippedOf, List.filterMap_cons]
        have hasg : assignedOf (AllocEv.skip t0 avail :: (allocSprint avail rest).1) =
            assignedOf (allocSprint avail rest).1 := by
          simp [assignedOf, List.filterMap_cons]
        rw [hsk] at ht
        rw [hasg]
        rcases List.mem_cons.mp ht with rfl | hm
        · constructor
          · intro hc
            have := assignedOf_subset hc
            have h2 := allocSprint_tickets rest avail
            have : t ∈ rest := by
              rw [← h2]
              exact List.mem_append.mpr (Or.inl this)
            exact hnd0 this
          · intro hc
            have h2 := allocSprint_tickets rest avail
            have : t ∈ rest := by
              rw [← h2]
              exact List.mem_append.mpr (Or.inr hc)
            exact hnd0 this
        · exact ih avail hndr t hm
      · rw [if_neg hskip] at ht ⊢
        have hsk : skippedOf (AllocEv.assign t0 avail :: (allocSprint (avail - ptsOf t0) rest).1) =
            skippedOf (allocSprint (avail - ptsOf t0) rest).1 := by
          simp [skippedOf, List.filterMap_cons]
        have hasg : assignedOf (AllocEv.assign t0 avail :: (allocSprint (avail - ptsOf t0) rest).1) =
            t0 :: assignedOf (allocSprint (avail - ptsOf t0) rest).1 := by
          simp [assignedOf, List.filterMap_cons]
        rw [hsk] at ht
        rw [hasg]
        have hrec := ih (avail - ptsOf t0) hndr t ht
        have htrest : t ∈ rest := by
          have h2 := allocSprint_tickets rest (avail - ptsOf t0)
          rw [← h2]
          exact List.mem_append.mpr (Or.inl (skippedOf_subset ht))
        refine ⟨?_, hrec.2⟩
        intro hc
        rcases List.mem_cons.mp hc with rfl | hm
        · exact hnd0 htrest
        · exact hrec.1 hm

theorem allocatePass_sids : ∀ (sprints : List Sprint) (budget : ℚ) (bk : List Issue),
    ∀ e ∈ (allocatePass budget sprints bk).1, e.1 ∈ sprints.map fun s => s.sid := by
  intro sprints
  induction sprints with
  | nil => intro budget bk e he; cases he
  | cons s rest ih =>
    intro budget bk e he
    simp only [allocatePass] at he
    by_cases hbk : bk = []
    · rw [if_pos hbk] at he
      cases he
    · rw [if_neg hbk] at he
      by_cases h0 : sprintAvail budget s ≤ 0
      · rw [if_pos h0] at he
        exact List.mem_cons_of_mem _ (ih budget bk e he)
      · rw [if_neg h0] at he
        rcases List.mem_cons.mp he with rfl | hm
        · simp
        · exact List.mem_cons_of_mem _ (ih budget _ e hm)

theorem allocatePass_tickets_in : ∀ (sprints : List Sprint) (budget : ℚ) (bk : List Issue),
    ∀ e ∈ (allocatePass budget sprints bk).1, ∀ ev ∈ e.2.2, evTicket ev ∈ bk := by
  intro sprints
  induction sprints with
  | nil => intro budget bk e he; cases he
  | cons s rest ih =>
    intro budget bk e he ev hev
    simp only [allocatePass] at he
    by_cases hbk : bk = []
    · rw [if_pos hbk] at he
      cases he
    · rw [if_neg hbk] at he
      by_cases h0 : sprintAvail budget s ≤ 0
      · rw [if_pos h0] at he
        exact ih budget bk e he ev hev
      · rw [if_neg h0] at he
        have hsplit := allocSprint_tickets bk (sprintAvail budget s)
        rcases List.mem_cons.mp he with rfl | hm
        · rw [← hsplit]
          exact List.mem_append.mpr (Or.inl (List.mem_map_of_mem evTicket hev))
        · have := ih budget _ e hm ev hev
          rw [← hsplit]
          exact List.mem_append.mpr (Or.inr this)

theorem allocatePass_events : ∀ (sprints : List Sprint) (budget : ℚ) (bk : List Issue),
    ∀ e ∈ (allocatePass budget sprints bk).1, ∀ ev ∈ e.2.2,
      (∀ t a, ev = AllocEv.assign t a → ptsOf t ≤ a ∧ 0 < a) ∧
      (∀ t a, ev = AllocEv.skip t a → a < ptsOf t ∧ 0 < a) := by
  intro sprints
  induction sprints with
  | nil => intro budget bk e he; cases he
  | cons s rest ih =>
    intro budget bk e he ev hev
    simp only [allocatePass] at he
    by_cases hbk : bk = []
    · rw [if_pos hbk] at he
      cases he
    · rw [if_neg hbk] at he
      by_cases h0 : sprintAvail budget s ≤ 0
      · rw [if_pos h0] at he
        exact ih budget bk e he ev hev
      · rw [if_neg h0] at he
        rcases List.mem_cons.mp he with rfl | hm
        · exact allocSprint_events bk (sprintAvail budget s) ev hev
        · exact ih budget _ e hm ev hev

theorem assignedPointsTo_cons (sid : Nat) (e : Nat × ℚ × List AllocEv)
    (res : List (Nat × ℚ × List AllocEv)) :
    assignedPointsTo sid (e :: res) =
      (if e.1 = sid then assignedPoints e.2.2 else 0) + assignedPointsTo sid res := by
  by_cases h : e.1 = sid <;> simp [assignedPointsTo, h]

theorem assignedPointsTo_eq_zero {sid : Nat} {res : List (Nat × ℚ × List AllocEv)}
    (h : ∀ e ∈ res, e.1 ≠ sid) : assignedPointsTo sid res = 0 := by
  induction res with
  | nil => rfl
  | cons e rest ih =>
    rw [assignedPointsTo_cons, if_neg (h e (by simp)), ih fun x hx => h x (List.mem_cons_of_mem _ hx)]
    simp

theorem allocatePass_sum_le : ∀ (sprints : List Sprint) (budget : ℚ) (bk : List Issue),
    ((sprints.map fun s => s.sid).Nodup) →
    ∀ s ∈ sprints,
      assignedPointsTo s.sid (allocatePass budget sprints bk).1 ≤ max (sprintAvail budget s) 0 := by
  intro sprints
  induction sprints with
  | nil => intro budget bk _ s hs; cases hs
  | cons s0 rest ih =>
    intro budget bk hnd s hs
    have hnd' : (s0.sid :: rest.map fun s => s.sid).Nodup := by
      simpa only [List.map_cons] using hnd
    have hnd0 : s0.sid ∉ rest.map fun s => s.sid := (List.nodup_cons.mp hnd').1
    have hndr : (rest.map fun s => s.sid).Nodup := (List.nodup_cons.mp hnd').2
    simp only [allocatePass]
    by_cases hbk : bk = []
    · rw [if_pos hbk]
      simp [assignedPointsTo]
    · rw [if_neg hbk]
      by_cases h0 : sprintAvail budget s0 ≤ 0
      · rw [if_pos h0]
        rcases List.mem_cons.mp hs with rfl | hm
        · have hz : assignedPointsTo s.sid (allocatePass budget rest bk).1 = 0 := by
            refine assignedPointsTo_eq_zero fun e he hc => ?_
            have := allocatePass_sids rest budget bk e he
            rw [hc] at this
            exact hnd0 this
          rw [hz]
          exact le_max_right _ _
        · exact ih budget bk hndr s hm
      · rw [if_neg h0]
        rcases List.mem_cons.mp hs with rfl | hm
        · rw [assignedPointsTo_cons, if_pos rfl]
          have hz : assignedPointsTo s.sid (allocatePass budget rest
              (allocSprint (sprintAvail budget s) bk).2).1 = 0 := by
            refine assignedPointsTo_eq_zero fun e he hc => ?_
            have := allocatePass_sids rest budget _ e he
            rw [hc] at this
            exact hnd0 this
          rw [hz]
          have hsum := allocSprint_sum_le bk (sprintAvail budget s) (le_of_not_le h0)
          have : max (sprintAvail budget s) 0 = sprintAvail budget s :=
            max_eq_left (le_of_not_le h0)
          rw [this]
          linarith
        · have hne : s0.sid ≠ s.sid := by
            intro hc
            rw [hc] at hnd0
            exact hnd0 (List.mem_map_of_mem _ hm)
          rw [assignedPointsTo_cons, if_neg hne]
          have := ih budget (allocSprint (sprintAvail budget s0) bk).2 hndr s hm
          linarith

theorem allocatePass_skip_never_assigned :
    ∀ (sprints : List Sprint) (budget : ℚ) (bk : List Issue), bk.Nodup →
    ∀ e ∈ (allocatePass budget sprints bk).1, ∀ t ∈ skippedOf e.2.2,
      t ∉ allAssigned (allocatePass budget sprints bk).1 := by
  intro sprints
  induction sprints with
  | nil => intro budget bk _ e he; cases he
  | cons s rest ih =>
    intro budget bk hnd e he t ht
    simp only [allocatePass] at he ⊢
    by_cases hbk : bk = []
    · rw [if_pos hbk] at he
      cases he
    · rw [if_neg hbk] at he ⊢
      by_cases h0 : sprintAvail budget s ≤ 0
      · rw [if_pos h0] at he ⊢
        exact ih budget bk hnd e he t ht
      · rw [if_neg h0] at he ⊢
        have hsplit := allocSprint_tickets bk (sprintAvail budget s)
        have hnd2 : ((allocSprint (sprintAvail budget s) bk).1.map evTicket ++
            (allocSprint (sprintAvail budget s) bk).2).Nodup := by rw [hsplit]; exact hnd
        rcases List.nodup_append.mp hnd2 with ⟨hnds, hndrem, hdisj⟩
        intro hc
        simp only [allAssigned, List.map_cons, List.flatten_cons, List.mem_append] at hc
        rcases List.mem_cons.mp he with rfl | hm
        · -- t skipped in the head sprint
          have hfresh := allocSprint_skip_fresh bk (sprintAvail budget s) hnd t ht
          rcases hc with hc1 | hc2
          · exact hfresh.1 hc1
          · -- t assigned in a later sprint: its tickets live in the remainder
            rcases List.mem_flatten.mp hc2 with ⟨l, hl, htl⟩
            rcases List.mem_map.mp hl with ⟨e2, he2, rfl⟩
            have := allocatePass_tickets_in rest budget _ e2 he2
            rcases mem_assignedOf.mp htl with ⟨a, ha⟩
            have : t ∈ (allocSprint (sprintAvail budget s) bk).2 := by
              have h5 := this (AllocEv.assign t a) ha
              simpa [evTicket] using h5
            exact hfresh.2 this
        · -- t skipped in a later sprint: t lives in the remainder, so it is not
          -- assigned in the head sprint; recursion covers the rest
          have htrem : t ∈ (allocSprint (sprintAvail budget s) bk).2 := by
            have h5 := allocatePass_tickets_in rest budget _ e hm
            rcases mem_skippedOf.mp ht with ⟨a, ha⟩
            have := h5 (AllocEv.skip t a) ha
            simpa [evTicket] using this
          rcases hc with hc1 | hc2
          · exact hdisj (assignedOf_subset hc1) htrem
          · have hrec := ih budget _ hndrem e hm t ht
            simp only [allAssigned] at hrec
            exact hrec hc2

/-! ### C2: Capacity Allocator budget invariant -/

/-- Claim C2 counterexample: a sprint already holding 50 To Do points has
available capacity 40 − 50 = −10; the pass skips it and assigns nothing, so
the newly-assigned sum 0 exceeds the (negative) available capacity and the
claim as stated fails. -/
theorem capacity_budget_cex :
    ¬ (assignedPointsTo 1 (allocatePass MAX_SPRINT_POINTS
          [⟨1, "S1", ⟨2024, 1, 2⟩, ⟨2024, 1, 15⟩, SprintState.future,
            [⟨"AX-1", some 50, "To Do"⟩]⟩]
          [⟨"AX-2", some 5, "Ready"⟩]).1 ≤
        sprintAvail MAX_SPRINT_POINTS
          ⟨1, "S1", ⟨2024, 1, 2⟩, ⟨2024, 1, 15⟩, SprintState.future,
            [⟨"AX-1", some 50, "To Do"⟩]⟩) := by
  norm_num [allocatePass, allocSprint, sprintAvail, get_sprint_todo_points, ptsOf,
    assignedPointsTo, MAX_SPRINT_POINTS]

/-- Claim C2 (amended): in one allocation pass, the sum of points newly
assigned to any single sprint never exceeds max(available capacity, 0) — a
sprint with nonpositive capacity is skipped and receives nothing, and the
sum never exceeds a nonnegative capacity; and every assigned ticket's points
are ≤ the sprint's remaining capacity at the moment of its assignment. -/
theorem capacity_budget_invariant (budget : ℚ) (sprints : List Sprint)
    (backlog : List Issue) (h : (sprints.map fun s => s.sid).Nodup) :
    (∀ s ∈ sprints, assignedPointsTo s.sid (allocatePass budget sprints backlog).1 ≤
      max (sprintAvail budget s) 0) ∧
    (∀ e ∈ (allocatePass budget sprints backlog).1, ∀ t a,
      AllocEv.assign t a ∈ e.2.2 → ptsOf t ≤ a) := by
  refine ⟨fun s hs => allocatePass_sum_le sprints budget backlog h s hs, ?_⟩
  intro e he t a ha
  exact ((allocatePass_events sprints budget backlog e he _ ha).1 t a rfl).1

/-- Witness for C2 (amended) at a concrete allocation. -/
theorem capacity_budget_invariant_witness :
    (assignedPointsTo 1 (allocatePass 10
        [⟨1, "S1", ⟨2024, 1, 2⟩, ⟨2024, 1, 15⟩, SprintState.future, []⟩]
        [⟨"T1", some 5, "Ready"⟩]).1 ≤
      max (sprintAvail 10 ⟨1, "S1", ⟨2024, 1, 2⟩, ⟨2024, 1, 15⟩, SprintState.future, []⟩) 0) ∧
    ptsOf ⟨"T1", some 5, "Ready"⟩ ≤ 10 :=
  ⟨(capacity_budget_invariant 10
      [⟨1, "S1", ⟨2024, 1, 2⟩, ⟨2024, 1, 15⟩, SprintState.future, []⟩]
      [⟨"T1", some 5, "Ready"⟩] (by decide)).1
      ⟨1, "S1", ⟨2024, 1, 2⟩, ⟨2024, 1, 15⟩, SprintState.future, []⟩ (by decide),
   (capacity_budget_invariant 10
      [⟨1, "S1", ⟨2024, 1, 2⟩, ⟨2024, 1, 15⟩, SprintState.future, []⟩]
      [⟨"T1", some 5, "Ready"⟩] (by decide)).2
      (1, 10, [AllocEv.assign ⟨"T1", some 5, "Ready"⟩ 10])
      (by norm_num [allocatePass, allocSprint, sprintAvail, get_sprint_todo_points, ptsOf])
      ⟨"T1", some 5, "Ready"⟩ 10 (by decide)⟩

/-! ### C3: Capacity Allocator skip semantics -/

/-- Claim C3 (Capacity Allocator skip semantics): a ticket skipped because
its points exceed the remaining capacity at the moment it is considered is
never assigned to that sprint nor to any later sprint in the same pass; and
the concrete scenario — budget 10, empty sprint, backlog
[T1(5), T2(8), T3(3)] — assigns T1 and T3 and leaves T2 unassigned. -/
theorem capacity_skip_semantics :
    (∀ (budget : ℚ) (sprints : List Sprint) (backlog : List Issue), backlog.Nodup →
      ∀ e ∈ (allocatePass budget sprints backlog).1, ∀ t a,
        AllocEv.skip t a ∈ e.2.2 →
          a < ptsOf t ∧ t ∉ allAssigned (allocatePass budget sprints backlog).1) ∧
    (allocatePass 10
        [⟨1, "S1", ⟨2024, 1, 2⟩, ⟨2024, 1, 15⟩, SprintState.future, []⟩]
        [⟨"T1", some 5, "Ready"⟩, ⟨"T2", some 8, "Ready"⟩, ⟨"T3", some 3, "Ready"⟩] =
      ([(1, 10, [AllocEv.assign ⟨"T1", some 5, "Ready"⟩ 10,
                 AllocEv.skip ⟨"T2", some 8, "Ready"⟩ 5,
                 AllocEv.assign ⟨"T3", some 3, "Ready"⟩ 5])], [])) := by
  constructor
  · intro budget sprints backlog hnd e he t a ha
    refine ⟨((allocatePass_events sprints budget backlog e he _ ha).2 t a rfl).1, ?_⟩
    exact allocatePass_skip_never_assigned sprints budget backlog hnd e he t
      (mem_skippedOf.mpr ⟨a, ha⟩)
  · norm_num [allocatePass, allocSprint, sprintAvail, get_sprint_todo_points, ptsOf]
    simp

/-- Witness for C3 at a concrete skipped ticket. -/
theorem capacity_skip_semantics_witness :
    (10 : ℚ) < ptsOf ⟨"T2", some 20, "Ready"⟩ ∧
      ⟨"T2", some 20, "Ready"⟩ ∉ allAssigned (allocatePass 10
        [⟨1, "S1", ⟨2024, 1, 2⟩, ⟨2024, 1, 15⟩, SprintState.future, []⟩]
        [⟨"T2", some 20, "Ready"⟩]).1 :=
  capacity_skip_semantics.1 10
    [⟨1, "S1", ⟨2024, 1, 2⟩, ⟨2024, 1, 15⟩, SprintState.future, []⟩]
    [⟨"T2", some 20, "Ready"⟩] (by decide)
    (1, 10, [AllocEv.skip ⟨"T2", some 20, "Ready"⟩ 10])
    (by norm_num [allocatePass, allocSprint, sprintAvail, get_sprint_todo_points, ptsOf])
    ⟨"T2", some 20, "Ready"⟩ 10 (by decide)

/-! ### C10: allocation frame property -/

theorem foldl_map_eq_map_foldl {α β : Type} (step : β → α → α) :
    ∀ (ms : List β) (l : List α),
      ms.foldl (fun acc m => acc.map (step m)) l =
        l.map fun x => ms.foldl (fun y m => step m y) x := by
  intro ms
  induction ms with
  | nil => intro l; simp
  | cons m rest ih =>
    intro l
    simp only [List.foldl_cons]
    rw [ih (l.map (step m)), List.map_map]
    rfl

theorem moveStep_sid (i : Issue) (sid : Nat) (s : Sprint) : (moveStep i sid s).sid = s.sid := by
  unfold moveStep
  split <;> rfl

theorem foldl_moveStep_sid : ∀ (ms : List (Issue × Nat)) (s : Sprint),
    (ms.foldl (fun y m => moveStep m.1 m.2 y) s).sid = s.sid := by
  intro ms
  induction ms with
  | nil => intro s; rfl
  | cons m rest ih =>
    intro s
    rw [List.foldl_cons, ih, moveStep_sid]

theorem moveStep_fix (i : Issue) (sid : Nat) (s : Sprint) (hsid : s.sid ≠ sid)
    (hkeys : ∀ j ∈ s.issues, j.key ≠ i.key) : moveStep i sid s = s := by
  unfold moveStep
  rw [if_neg hsid]
  have h : s.issues.filter (fun j => decide (j.key ≠ i.key)) = s.issues :=
    List.filter_eq_self.mpr fun j hj => by simpa using hkeys j hj
  rw [h]

theorem foldl_moveStep_fix : ∀ (ms : List (Issue × Nat)) (s : Sprint),
    (∀ m ∈ ms, moveStep m.1 m.2 s = s) →
    ms.foldl (fun y m => moveStep m.1 m.2 y) s = s := by
  intro ms
  induction ms with
  | nil => intro s _; rfl
  | cons m rest ih =>
    intro s h
    rw [List.foldl_cons, h m (by simp), ih s fun x hx => h x (List.mem_cons_of_mem _ hx)]

theorem mem_sortBy {α : Type} (le : α → α → Bool) (l : List α) (x : α) :
    x ∈ sortBy le l ↔ x ∈ l :=
  (sortBy_perm le l).mem_iff

theorem mem_get_future_sprints {board : List Sprint} {s : Sprint}
    (h : s ∈ get_future_sprints board) : s ∈ board ∧ s.state = SprintState.future := by
  rw [get_future_sprints, mem_sortBy] at h
  have h2 := List.mem_filter.mp h
  exact ⟨h2.1, by simpa using h2.2⟩

theorem job2_moves_spec (budget : ℚ) (board : List Sprint) (backlog : List Issue) :
    ∀ m ∈ job2_moves budget board backlog,
      (∃ s ∈ board, s.sid = m.2 ∧ s.state = SprintState.future) ∧ m.1 ∈ backlog := by
  intro m hm
  simp only [job2_moves, List.mem_flatMap] at hm
  rcases hm with ⟨e, he, hme⟩
  rcases List.mem_map.mp hme with ⟨i, hi, rfl⟩
  constructor
  · have hsid := allocatePass_sids _ budget backlog e he
    rcases List.mem_map.mp hsid with ⟨s', hs', hsid'⟩
    rcases mem_get_future_sprints hs' with ⟨hb, hf⟩
    exact ⟨s', hb, hsid', hf⟩
  · rcases mem_assignedOf.mp hi with ⟨a, ha⟩
    have h5 := allocatePass_tickets_in _ budget backlog e he (AllocEv.assign i a) ha
    simpa [evTicket] using h5

theorem filter_sid_eq : ∀ (board : List Sprint) (s : Sprint),
    (board.map fun x => x.sid).Nodup → s ∈ board →
    board.filter (fun u => decide (u.sid = s.sid)) = [s] := by
  intro board
  induction board with
  | nil => intro s _ hs; cases hs
  | cons u rest ih =>
    intro s hN hs
    have hnd' : (u.sid :: rest.map fun x => x.sid).Nodup := by
      simpa only [List.map_cons] using hN
    have h1 : u.sid ∉ rest.map fun x => x.sid := (List.nodup_cons.mp hnd').1
    have h2 : (rest.map fun x => x.sid).Nodup := (List.nodup_cons.mp hnd').2
    rcases List.mem_cons.mp hs with rfl | hmem
    · rw [List.filter_cons_of_pos (by simp)]
      have hnil : rest.filter (fun u2 => decide (u2.sid = s.sid)) = [] := by
        refine List.filter_eq_nil_iff.mpr fun x hx => ?_
        simp only [decide_eq_true_eq]
        intro hc
        exact h1 (hc ▸ List.mem_map_of_mem _ hx)
      rw [hnil]
    · have hne : u.sid ≠ s.sid := fun hc => h1 (hc ▸ List.mem_map_of_mem _ hmem)
      rw [List.filter_cons_of_neg (by simpa using hne)]
      exact ih s h2 hmem

/-- Claim C10 (allocation frame property): the allocation pass iterates only
over Future sprints, so an Active sprint never receives a backlog ticket
from JOB 2 and survives it completely unchanged — the result board's sprints
carrying the Active sprint's id are exactly the original sprint record. -/
theorem allocation_frame (budget : ℚ) (board : List Sprint) (backlog : List Issue)
    (s : Sprint) (hN : (board.map fun x => x.sid).Nodup) (hs : s ∈ board)
    (ha : s.state = SprintState.active)
    (hdisj : ∀ i ∈ backlog, ∀ j ∈ s.issues, i.key ≠ j.key) :
    (job2 budget board backlog).filter (fun t => decide (t.sid = s.sid)) = [s] := by
  have hinj := List.inj_on_of_nodup_map hN
  have hfix : ∀ m ∈ job2_moves budget board backlog, moveStep m.1 m.2 s = s := by
    intro m hm
    rcases job2_moves_spec budget board backlog m hm with ⟨⟨s', hb, hsid, hf⟩, hbk⟩
    refine moveStep_fix m.1 m.2 s ?_ fun j hj => Ne.symm (hdisj m.1 hbk j hj)
    intro hc
    have hse : s' = s := hinj hb hs (by rw [hsid, hc])
    rw [hse, ha] at hf
    cases hf
  have hmap : job2 budget board backlog =
      board.map fun x =>
        (job2_moves budget board backlog).foldl (fun y m => moveStep m.1 m.2 y) x := by
    rw [job2]
    exact foldl_map_eq_map_foldl (fun m x => moveStep m.1 m.2 x)
      (job2_moves budget board backlog) board
  have hFs : (job2_moves budget board backlog).foldl (fun y m => moveStep m.1 m.2 y) s = s :=
    foldl_moveStep_fix _ s hfix
  rw [hmap, List.filter_map]
  have hcongr : board.filter
      ((fun t => decide (t.sid = s.sid)) ∘
        fun x => (job2_moves budget board backlog).foldl (fun y m => moveStep m.1 m.2 y) x) =
      board.filter (fun u => decide (u.sid = s.sid)) := by
    refine List.filter_congr fun x _ => ?_
    simp only [Function.comp_apply, foldl_moveStep_sid]
  rw [hcongr, filter_sid_eq board s hN hs]
  simp only [List.map_cons, List.map_nil, hFs]

/-- Witness for C10 on a two-sprint board. -/
theorem allocation_frame_witness :
    (job2 10
        [⟨1, "A", ⟨2024, 1, 1⟩, ⟨2024, 1, 14⟩, SprintState.active,
          [⟨"AX-9", some 3, "To Do"⟩]⟩,
         ⟨2, "F", ⟨2024, 1, 15⟩, ⟨2024, 1, 28⟩, SprintState.future, []⟩]
        [⟨"T1", some 5, "Ready"⟩]).filter
      (fun t => decide (t.sid = (⟨1, "A", ⟨2024, 1, 1⟩, ⟨2024, 1, 14⟩, SprintState.active,
          [⟨"AX-9", some 3, "To Do"⟩]⟩ : Sprint).sid)) =
      [⟨1, "A", ⟨2024, 1, 1⟩, ⟨2024, 1, 14⟩, SprintState.active,
        [⟨"AX-9", some 3, "To Do"⟩]⟩] :=
  allocation_frame 10
    [⟨1, "A", ⟨2024, 1, 1⟩, ⟨2024, 1, 14⟩, SprintState.active,
      [⟨"AX-9", some 3, "To Do"⟩]⟩,
     ⟨2, "F", ⟨2024, 1, 15⟩, ⟨2024, 1, 28⟩, SprintState.future, []⟩]
    [⟨"T1", some 5, "Ready"⟩]
    ⟨1, "A", ⟨2024, 1, 1⟩, ⟨2024, 1, 14⟩, SprintState.active,
      [⟨"AX-9", some 3, "To Do"⟩]⟩
    (by decide) (by decide) (by decide) (by decide)

/-! ### C6: Sprint Lifecycle concrete scenario -/

/-- Claim C6 (Sprint Lifecycle concrete scenario): with S1 Active ending
2024-01-01 holding A (In Progress) and B (Done), and S2 Future starting
2024-01-02, the lifecycle step on today = 2024-01-01 closes S1, collects
exactly [A] as carry-over, activates S2 and reassigns A to S2. -/
theorem lifecycle_scenario :
    manage_sprint_lifecycle ⟨2024, 1, 1⟩
      [⟨1, "S1", ⟨2023, 12, 18⟩, ⟨2024, 1, 1⟩, SprintState.active,
        [⟨"A", none, "In Progress"⟩, ⟨"B", none, "Done"⟩]⟩,
       ⟨2, "S2", ⟨2024, 1, 2⟩, ⟨2024, 1, 15⟩, SprintState.future, []⟩] =
    ([⟨1, "S1", ⟨2023, 12, 18⟩, ⟨2024, 1, 1⟩, SprintState.closed,
        [⟨"B", none, "Done"⟩]⟩,
      ⟨2, "S2", ⟨2024, 1, 2⟩, ⟨2024, 1, 15⟩, SprintState.active,
        [⟨"A", none, "In Progress"⟩]⟩],
     [⟨"A", none, "In Progress"⟩]) := by
  decide

/-! ### C7: Sprint Lifecycle single-activation invariant -/

theorem zip_map_self {α β : Type} (f : α → β) :
    ∀ l : List α, l.zip (l.map f) = l.map fun x => (x, f x) := by
  intro l
  induction l with
  | nil => rfl
  | cons x rest ih => simp [List.zip_cons_cons, ih]

theorem countP_sid_le_one : ∀ (board : List Sprint),
    (board.map fun x => x.sid).Nodup → ∀ sid : Nat,
    board.countP (fun s => decide (s.sid = sid)) ≤ 1 := by
  intro board
  induction board with
  | nil => intro _ sid; simp
  | cons u rest ih =>
    intro hN sid
    have hnd' : (u.sid :: rest.map fun x => x.sid).Nodup := by
      simpa only [List.map_cons] using hN
    have h1 : u.sid ∉ rest.map fun x => x.sid := (List.nodup_cons.mp hnd').1
    have h2 : (rest.map fun x => x.sid).Nodup := (List.nodup_cons.mp hnd').2
    rw [List.countP_cons]
    by_cases hu : u.sid = sid
    · have hz : rest.countP (fun s => decide (s.sid = sid)) = 0 := by
        refine List.countP_eq_zero.mpr fun x hx => ?_
        simp only [decide_eq_true_eq]
        intro hc
        exact h1 (by rw [hu, ← hc]; exact List.mem_map_of_mem _ hx)
      rw [hz]
      simp [hu]
    · have := ih h2 sid
      simp only [hu]
      simpa using this

theorem moveStep_state (i : Issue) (sid : Nat) (s : Sprint) :
    (moveStep i sid s).state = s.state := by
  unfold moveStep
  split <;> rfl

theorem foldl_moveStep_state : ∀ (ms : List Issue) (sid : Nat) (s : Sprint),
    (ms.foldl (fun y i => moveStep i sid y) s).state = s.state := by
  intro ms
  induction ms with
  | nil => intro sid s; rfl
  | cons i rest ih =>
    intro sid s
    rw [List.foldl_cons, ih, moveStep_state]

theorem activateStep_state (sid : Nat) (s : Sprint) :
    (activateStep sid s).state = if s.sid = sid then SprintState.active else s.state := by
  unfold activateStep
  split <;> rfl

theorem activateStep_sid (sid : Nat) (s : Sprint) : (activateStep sid s).sid = s.sid := by
  unfold activateStep
  split <;> rfl

theorem closeStep_future {today : Date} {s : Sprint} (h : s.state = SprintState.future) :
    closeStep today s = s := by
  unfold closeStep
  rw [if_neg]
  simp [shouldClose, h]

/-- Claim C7 (Sprint Lifecycle single-activation invariant): one planning
pass turns at most one Future sprint Active; the start-next step fires only
when zero sprints remain Active after the overdue closings (otherwise the
board is exactly the closed board); and when no Future sprint exists the
pass ends with zero Active sprints — a valid state, not an error. -/
theorem lifecycle_single_activation (today : Date) (board : List Sprint)
    (hN : (board.map fun x => x.sid).Nodup) :
    transitionsToActive board (manage_sprint_lifecycle today board).1 ≤ 1 ∧
    (get_active_sprint (closeOverdue today board) ≠ [] →
      (manage_sprint_lifecycle today board).1 = closeOverdue today board) ∧
    (get_active_sprint (closeOverdue today board) = [] →
      get_future_sprints (closeOverdue today board) = [] →
      get_active_sprint (manage_sprint_lifecycle today board).1 = []) := by
  refine ⟨?_, ?_, ?_⟩
  · cases hns : nextSprintSid today board with
    | none =>
      have hres : (manage_sprint_lifecycle today board).1 = closeOverdue today board := by
        simp only [manage_sprint_lifecycle, hns]
      rw [hres, transitionsToActive, closeOverdue, zip_map_self, List.filter_map,
        List.length_map]
      have hnil : board.filter ((fun p =>
          decide (p.1.state = SprintState.future) &&
            decide (p.2.state = SprintState.active)) ∘
          fun x => (x, closeStep today x)) = [] := by
        refine List.filter_eq_nil_iff.mpr fun s _ => ?_
        simp only [Function.comp_apply, Bool.and_eq_true, decide_eq_true_eq, not_and]
        intro hf
        rw [closeStep_future hf, hf]
        simp
      rw [hnil]
      simp
    | some sid =>
      have hres : (manage_sprint_lifecycle today board).1 =
          board.map fun x => (carryoverOf today board).foldl (fun y i => moveStep i sid y)
            (activateStep sid (closeStep today x)) := by
        simp only [manage_sprint_lifecycle, hns, startAndCarry]
        refine (foldl_map_eq_map_foldl (fun i x => moveStep i sid x)
            (carryoverOf today board) ((closeOverdue today board).map (activateStep sid))).trans ?_
        rw [closeOverdue, List.map_map, List.map_map]
        rfl
      rw [hres, transitionsToActive, zip_map_self, List.filter_map, List.length_map,
        ← List.countP_eq_length_filter]
      refine le_trans (List.countP_mono_left (q := fun s => decide (s.sid = sid))
        fun s _ hp => ?_) (countP_sid_le_one board hN sid)
      simp only [Function.comp_apply, Bool.and_eq_true, decide_eq_true_eq] at hp
      rcases hp with ⟨hf, hact⟩
      rw [foldl_moveStep_state, activateStep_state, closeStep_future hf] at hact
      by_cases hsid : s.sid = sid
      · simpa using hsid
      · rw [if_neg hsid, hf] at hact
        cases hact
  · intro hne
    have hns : nextSprintSid today board = none := by
      simp only [nextSprintSid]
      rw [if_neg fun hc => hne (List.isEmpty_iff.mp hc)]
    simp only [manage_sprint_lifecycle, hns]
  · intro hact hfut
    have hns : nextSprintSid today board = none := by
      simp [nextSprintSid, hact, hfut]
    simp only [manage_sprint_lifecycle, hns]
    exact hact

/-- Witness for C7 on concrete boards: a normal activation run, a run with a
remaining Active sprint (start-next does not fire), and a run with no Future
sprint (zero Active sprints is not an error). -/
theorem lifecycle_single_activation_witness :
    transitionsToActive
      [⟨1, "S1", ⟨2023, 12, 18⟩, ⟨2024, 1, 1⟩, SprintState.active, []⟩,
       ⟨2, "S2", ⟨2024, 1, 2⟩, ⟨2024, 1, 15⟩, SprintState.future, []⟩]
      (manage_sprint_lifecycle ⟨2024, 1, 1⟩
        [⟨1, "S1", ⟨2023, 12, 18⟩, ⟨2024, 1, 1⟩, SprintState.active, []⟩,
         ⟨2, "S2", ⟨2024, 1, 2⟩, ⟨2024, 1, 15⟩, SprintState.future, []⟩]).1 ≤ 1 ∧
    (manage_sprint_lifecycle ⟨2024, 1, 1⟩
        [⟨3, "S3", ⟨2024, 1, 1⟩, ⟨2024, 2, 1⟩, SprintState.active, []⟩]).1 =
      closeOverdue ⟨2024, 1, 1⟩
        [⟨3, "S3", ⟨2024, 1, 1⟩, ⟨2024, 2, 1⟩, SprintState.active, []⟩] ∧
    get_active_sprint (manage_sprint_lifecycle ⟨2024, 1, 1⟩
        [⟨4, "S4", ⟨2023, 1, 1⟩, ⟨2023, 2, 1⟩, SprintState.closed, []⟩]).1 = [] :=
  ⟨(lifecycle_single_activation ⟨2024, 1, 1⟩
      [⟨1, "S1", ⟨2023, 12, 18⟩, ⟨2024, 1, 1⟩, SprintState.active, []⟩,
       ⟨2, "S2", ⟨2024, 1, 2⟩, ⟨2024, 1, 15⟩, SprintState.future, []⟩] (by decide)).1,
   (lifecycle_single_activation ⟨2024, 1, 1⟩
      [⟨3, "S3", ⟨2024, 1, 1⟩, ⟨2024, 2, 1⟩, SprintState.active, []⟩] (by decide)).2.1
      (by decide),
   (lifecycle_single_activation ⟨2024, 1, 1⟩
      [⟨4, "S4", ⟨2023, 1, 1⟩, ⟨2023, 2, 1⟩, SprintState.closed, []⟩] (by decide)).2.2
      (by decide) (by decide)⟩

/-! ### C4: Priority Model unranked-last rule -/

/-- Claim C4 counterexample: a ticket whose epic IS roadmap-ranked — in the
Backlog bucket, cached with rank 999 — sorts strictly after, not before, a
ticket whose epic has no roadmap rank at all (unranked key 500), even though
the ranked ticket has the higher plain priority. -/
theorem unranked_rule_cex :
    ¬ keyLt
        (roadmap_sort_key [("AX-100", (cacheEntryRank (some ROADMAP_BACKLOG_ID), 5))]
          ⟨"AX-7", "Task", "AX-100", "Highest"⟩)
        (roadmap_sort_key [("AX-100", (cacheEntryRank (some ROADMAP_BACKLOG_ID), 5))]
          ⟨"AX-8", "Task", "", "Lowest"⟩) ∧
    keyLt
        (roadmap_sort_key [("AX-100", (cacheEntryRank (some ROADMAP_BACKLOG_ID), 5))]
          ⟨"AX-8", "Task", "", "Lowest"⟩)
        (roadmap_sort_key [("AX-100", (cacheEntryRank (some ROADMAP_BACKLOG_ID), 5))]
          ⟨"AX-7", "Task", "AX-100", "Highest"⟩) := by
  decide

/-- Claim C4 (amended): the sort key maps an unranked epic to 500, not +∞.
Every actual roadmap column yields a cache rank < 500, so a ticket whose
epic is ranked in a roadmap column sorts strictly before every unranked
ticket; but an epic ranked in the Backlog bucket is cached with rank
999 > 500, and its tickets sort strictly after all unranked tickets. -/
theorem unranked_rule (cache : List (String × Nat × ℚ)) (a b : RankTicket)
    (r : Nat) (v : ℚ) (hra : epicRankOf cache a = some (r, v))
    (hrb : epicRankOf cache b = none) :
    (r < 500 → keyLt (roadmap_sort_key cache a) (roadmap_sort_key cache b)) ∧
    (500 < r → keyLt (roadmap_sort_key cache b) (roadmap_sort_key cache a)) ∧
    (∀ p ∈ ROADMAP_COLUMNS, columnRank p.2 < 500) ∧
    cacheEntryRank (some ROADMAP_BACKLOG_ID) = 999 := by
  refine ⟨?_, ?_, by decide, by decide⟩
  · intro hr
    simp only [roadmap_sort_key, hra, hrb, keyLt]
    exact Or.inl hr
  · intro hr
    simp only [roadmap_sort_key, hra, hrb, keyLt]
    exact Or.inl hr

/-- Witness for C4 (amended): a column-ranked (rank 0) ticket beats an
unranked one; an unranked one beats a Backlog-bucket-ranked (999) one. -/
theorem unranked_rule_witness :
    keyLt (roadmap_sort_key [("AX-100", (0, 5))] ⟨"AX-7", "Task", "AX-100", "Lowest"⟩)
        (roadmap_sort_key [("AX-100", (0, 5))] ⟨"AX-8", "Task", "", "Highest"⟩) ∧
    keyLt (roadmap_sort_key [("AX-200", (999, 5))] ⟨"AX-8", "Task", "", "Highest"⟩)
        (roadmap_sort_key [("AX-200", (999, 5))] ⟨"AX-9", "Task", "AX-200", "Lowest"⟩) :=
  ⟨(unranked_rule [("AX-100", (0, 5))] ⟨"AX-7", "Task", "AX-100", "Lowest"⟩
      ⟨"AX-8", "Task", "", "Highest"⟩ 0 5 (by decide) (by decide)).1 (by decide),
   (unranked_rule [("AX-200", (999, 5))] ⟨"AX-9", "Task", "AX-200", "Lowest"⟩
      ⟨"AX-8", "Task", "", "Highest"⟩ 999 5 (by decide) (by decide)).2.1 (by decide)⟩

/-! ### C5: RICE Scorer safety -/

/-- Claim C5 counterexample: in the strategic prioritisation path the RICE
factors are not clamped to [1,5] — a reach of 10 is used as-is and the
computed value differs from the spec's clamped computation. -/
theorem rice_clamp_cex :
    orOne (some 10) = 10 ∧ ¬ (orOne (some 10) ≤ 5) ∧
    strategic_rice_value (some 10) (some 1) (some 1) (some 1) ≠
      spec_rice_value 10 1 1 1 := by
  refine ⟨by norm_num [orOne], by norm_num [orOne], ?_⟩
  norm_num [strategic_rice_value, spec_rice_value, orOne, clamp15Q]

/-- Claim C5 (amended): clamping to [1,5] happens in the user-feedback
enrichment path only, where each factor is clamped — so effort ≥ 1 and the
computation agrees with the spec's clamped formula; in the prioritisation
paths the factors are not clamped, but a missing or zero factor defaults to
1, so the effort divisor is nonzero in every path and division by zero is
impossible throughout. -/
theorem rice_safety :
    (∀ x : Int, 1 ≤ clampRice x ∧ clampRice x ≤ 5) ∧
    (∀ r i c e : Int, feedback_rice_value r i c e =
      spec_rice_value (r : ℚ) (i : ℚ) (c : ℚ) (e : ℚ)) ∧
    (∀ x : Option ℚ, orOne x ≠ 0) := by
  refine ⟨?_, ?_, ?_⟩
  · intro x
    unfold clampRice
    omega
  · intro r i c e
    unfold feedback_rice_value spec_rice_value clampRice clamp15Q
    push_cast
    rfl
  · intro x
    cases x with
    | none => simp [orOne]
    | some v =>
      by_cases hv : v = 0
      · simp [orOne, hv]
      · simp [orOne, hv]

end POAgent
